import Mathlib

/-!
# Verification of the bmtk spike-train buffer module

Shallow embedding of `src/bmtk/utils/reports/spike_trains/spike_train_buffer.py`
and proofs about it.

Modelling conventions:
* Python floats (timestamps) are modelled by `ℚ`: every claim about them only
  involves ordering and equality, which rationals model faithfully.
* Python ints (node ids) are `Int`, population labels are `String`.
* The on-disk cache files are modelled as lists of parsed records: the text
  format is one record per line, `"<timestamp> <population> <node_id>"`, with
  no escaping, so a line and a parsed record are in bijection.
* Fallible Python code (methods that can raise) returns `Except PyError α`.
* The module imports `six` and uses the pre-PEP-479 idiom
  `raise StopIteration` to end its generators, so the embedding uses the
  Python-2-compatible semantics the code was written for: a trailing
  `raise StopIteration` inside a generator ends the sequence cleanly, and
  `None` compares less than any tuple (so a `None` pushed into a `heapq`
  heap surfaces first and fails when it is tuple-unpacked).
* A generator is modelled by the finite list of values it yields.
-/

namespace SpikeTrainBuffer

/-- Error conditions the embedded Python code can raise.  The constructors
name the distinct failure sites of the source:
* `valueError` – numpy's `ValueError` from a reduction (`np.min`/`np.max`)
  over an empty sequence;
* `ioClosedFile` – Python's `ValueError: I/O operation on closed file`,
  raised when flushing or writing through a closed file handle;
* `attributeError` – `AttributeError` from reading an attribute that the
  object never defines (e.g. `STCSVBuffer._timestamps`);
* `typeError` – `TypeError` from tuple-unpacking `None`
  (`v, row, csv_reader = heapq.heappop(h)` when the popped head is `None`);
* `notImplementedError` – `raise NotImplementedError()`;
* `emptyBufferError` – the named "empty buffer" condition the specification
  demands for aggregate queries on an empty buffer (no code site raises it;
  it exists so that the spec's requirement can be stated);
* `fuelExhausted` – artefact of the fuel-indexed merge loop, never reached
  when the fuel bound is sufficient. -/
inductive PyError : Type
  | valueError
  | ioClosedFile
  | attributeError
  | typeError
  | notImplementedError
  | emptyBufferError
  | fuelExhausted
deriving DecidableEq, Repr

/-- Python's `x or d` for an optional string `x`: `None` and the empty
string are falsy, so both fall back to `d`. -/
def pyOrS (x : Option String) (d : String) : String :=
  match x with
  | Option.none => d
  | some s => if s = "" then d else s

/-- Modelled from the spec: `pop_na` is the fallback population label
imported from the missing `.core` module ("a configured default population
used when a caller omits one"; `pop_na` is the default default).  Its exact
text is irrelevant to every claim. -/
def pop_na : String := "pop_na"

/-- Modelled from the spec: the `SortOrder` enumeration imported from the
missing `.core` module — "an enumeration {None, ByTime, ById} selecting
retrieval ordering". -/
inductive SortOrder : Type
  | none
  | by_time
  | by_id
deriving DecidableEq, Repr

/-- One spike record `(timestamp, population, node_id)`, i.e. one line of a
cache file / one yielded triple. -/
structure Row where
  t : ℚ
  p : String
  node : Int
deriving DecidableEq, Repr

/-- One `add_spike(node_id, timestamp, population)` call. -/
structure Op where
  node : Int
  t : ℚ
  pop : Option String
deriving DecidableEq, Repr

/-- The `populations` argument of the read API: a single (scalar) label or a
collection of labels.  `np.isscalar` distinguishes the two in the source. -/
inductive PopArg : Type
  | single (p : String)
  | multi (ps : List String)
deriving DecidableEq, Repr

/-- `[populations] if np.isscalar(populations) else populations`. -/
def popList : PopArg → List String
  | PopArg.single p => [p]
  | PopArg.multi ps => ps

/-- `_spikes_filter1(p, t, time_window, populations)`. -/
def spikes_filter1 (p : String) (t : ℚ) (time_window : ℚ × ℚ)
    (populations : List String) : Bool :=
  decide (p ∈ populations) && (decide (time_window.1 ≤ t) && decide (t ≤ time_window.2))

/-- `_spikes_filter2(p, t, populations)`. -/
def spikes_filter2 (p : String) (_t : ℚ) (populations : List String) : Bool :=
  decide (p ∈ populations)

/-- `_spikes_filter3(p, t, time_window)`. -/
def spikes_filter3 (_p : String) (t : ℚ) (time_window : ℚ × ℚ) : Bool :=
  decide (time_window.1 ≤ t) && decide (t ≤ time_window.2)

/-- `_create_filter(populations, time_window)`: selects one of four
specialised predicates. -/
def create_filter (populations : Option PopArg) (time_window : Option (ℚ × ℚ)) :
    String → ℚ → Bool :=
  match populations, time_window with
  | Option.none, Option.none => fun _ _ => true
  | Option.none, some w => fun p t => spikes_filter3 p t w
  | some ps, Option.none => fun p t => spikes_filter2 p t (popList ps)
  | some ps, some w => fun p t => spikes_filter1 p t w (popList ps)

/-! ## Python dict model (population → running count)

The buffers keep `self._pop_counts`, a dict whose keys are the population
labels passed to lookups: the stored keys are always real strings (written
by `add_spike`) but `n_spikes(population=None)` looks the literal `None` up,
so the key type is `Option String`. -/

/-- `m.get(k, d)`: value at the first matching key, else the default. -/
def dictGet (m : List (Option String × Nat)) (k : Option String) (d : Nat) : Nat :=
  match m with
  | [] => d
  | (k2, v) :: rest => if k2 = k then v else dictGet rest k d

/-- `m[k] = m.get(k, 0) + 1`: bump the first matching key, appending the key
if absent (Python dicts keep insertion order). -/
def dictIncr (m : List (Option String × Nat)) (k : Option String) :
    List (Option String × Nat) :=
  match m with
  | [] => [(k, 1)]
  | (k2, v) :: rest => if k2 = k then (k2, v + 1) :: rest else (k2, v) :: dictIncr rest k

/-! ## Generic stable insertion sort

Deterministic, structurally recursive model of the sorting steps of the
source (`np.argsort` and pandas `sort_values`): any ordering that sorts by
the requested key is a faithful model, since both library sorts are
unstable and leave tie order unspecified. -/

/-- Insert `a` after every element `x` with `le x a` (stable insert). -/
def insertLe {α : Type} (le : α → α → Bool) (a : α) : List α → List α
  | [] => [a]
  | x :: xs => if le x a then x :: insertLe le a xs else a :: x :: xs

/-- Stable insertion sort by the boolean relation `le`. -/
def sortListBy {α : Type} (le : α → α → Bool) (l : List α) : List α :=
  l.foldr (insertLe le) []

/-- `np.argsort` over a list of timestamps: the index permutation that sorts
the values ascending. -/
def argsortQ (vals : List ℚ) : List Nat :=
  sortListBy (fun i j => decide (vals.getD i 0 ≤ vals.getD j 0)) (List.range vals.length)

/-- `np.argsort` over a list of node ids. -/
def argsortI (vals : List Int) : List Nat :=
  sortListBy (fun i j => decide (vals.getD i 0 ≤ vals.getD j 0)) (List.range vals.length)

/-! ## `STMemoryBuffer`

The in-memory backend: three parallel append-only lists plus the running
population-count dict.  The unused `node_ids` parameter of the Python
`spikes` signature is omitted: no method body ever reads it. -/

structure STMemoryBuffer where
  default_population : String
  node_ids : List Int
  timestamps : List ℚ
  populations : List String
  pop_counts : List (Option String × Nat)
deriving DecidableEq, Repr

namespace STMemoryBuffer

/-- `STMemoryBuffer.__init__(default_population=...)`:
`self._default_population = default_population or pop_na`,
empty storage lists, `self._pop_counts = {self._default_population: 0}`. -/
def init (default_population : Option String) : STMemoryBuffer :=
  { default_population := pyOrS default_population pop_na
    node_ids := []
    timestamps := []
    populations := []
    pop_counts := [(some (pyOrS default_population pop_na), 0)] }

/-- `add_spike(node_id, timestamp, population=None)`:
`population = population or self._default_population`, append to the three
lists, bump `self._pop_counts[population]`. -/
def add_spike (b : STMemoryBuffer) (node_id : Int) (timestamp : ℚ)
    (population : Option String) : STMemoryBuffer :=
  let pop := pyOrS population b.default_population
  { b with
    node_ids := b.node_ids ++ [node_id]
    timestamps := b.timestamps ++ [timestamp]
    populations := b.populations ++ [pop]
    pop_counts := dictIncr b.pop_counts (some pop) }

/-- `n_spikes(population=None)`: `self._pop_counts.get(population, 0)` —
note the argument is looked up as passed, without resolving `None` to the
default population. -/
def n_spikes (b : STMemoryBuffer) (population : Option String) : Nat :=
  dictGet b.pop_counts population 0

/-- `time_range(populations=None)`:
`np.min(self._timestamps), np.max(self._timestamps)`.  On an empty buffer
both reductions raise numpy's `ValueError` ("zero-size array to reduction
operation ... which has no identity"). -/
def time_range (b : STMemoryBuffer) : Except PyError (ℚ × ℚ) :=
  match b.timestamps with
  | [] => Except.error PyError.valueError
  | x :: xs => Except.ok (xs.foldl min x, xs.foldl max x)

/-- `to_dataframe(...)`: `raise NotImplementedError()`. -/
def to_dataframe (_b : STMemoryBuffer) (_populations : Option PopArg)
    (_time_window : Option (ℚ × ℚ)) (_sort_order : SortOrder) :
    Except PyError Unit :=
  Except.error PyError.notImplementedError

/-- `spikes(node_ids=None, populations=None, time_window=None, sort_order=...)`.
The sort-order dispatch is reproduced verbatim: the `elif` branch of the
source tests `sort_order == SortOrder.by_time` a second time (instead of
`by_id`), so the `np.argsort(self._node_ids)` arm is unreachable and every
`sort_order` other than `by_time` scans in insertion order.  The trailing
`raise StopIteration` ends the generator (pre-PEP-479 semantics), so the
generator is the returned list. -/
def spikes (b : STMemoryBuffer) (populations : Option PopArg)
    (time_window : Option (ℚ × ℚ)) (sort_order : SortOrder) : List Row :=
  let sort_indx : List Nat :=
    if sort_order = SortOrder.by_time then argsortQ b.timestamps
    else if sort_order = SortOrder.by_time then argsortI b.node_ids
    else List.range b.timestamps.length
  let f := create_filter populations time_window
  sort_indx.filterMap (fun i =>
    let t := b.timestamps.getD i 0
    let p := b.populations.getD i ""
    if f p t then some (Row.mk t p (b.node_ids.getD i 0)) else Option.none)

end STMemoryBuffer

/-- `buildMem d ops`: a fresh memory buffer after the given sequence of
`add_spike` calls. -/
def buildMem (d : Option String) (ops : List Op) : STMemoryBuffer :=
  ops.foldl (fun b o => b.add_spike o.node o.t o.pop) (STMemoryBuffer.init d)

/-! ## `STCSVBuffer`

The single-file disk-backed backend.  The cache file is modelled as the
list of its parsed lines (`file`), together with the state of the kept-open
write handle (`handle_open`) and whether the file still exists on disk
(`file_exists`). -/

structure STCSVBuffer where
  default_population : String
  file : List Row
  handle_open : Bool
  file_exists : Bool
  pop_counts : List (Option String × Nat)
  nspikes : Nat
deriving DecidableEq, Repr

/-- `_sort_buffer_file(file_name, sort_order)`: rewrite the file sorted by
the `time` column for `by_time`, by the `node` column for `by_id`, and
leave it untouched otherwise (pandas `sort_values`; tie order unspecified,
modelled by the stable insertion sort). -/
def sort_buffer_file (sort_order : SortOrder) (file : List Row) : List Row :=
  match sort_order with
  | SortOrder.by_time => sortListBy (fun a b => decide (a.t ≤ b.t)) file
  | SortOrder.by_id => sortListBy (fun a b => decide (a.node ≤ b.node)) file
  | SortOrder.none => file

namespace STCSVBuffer

/-- `STCSVBuffer.__init__(cache_dir=..., default_population=...)`: resolve
the default population, `open(self._buffer_filename, 'w')` (creating the
file and leaving the handle open), `self._pop_counts = {default: 0}`,
`self._nspikes = 0`. -/
def init (default_population : Option String) : STCSVBuffer :=
  { default_population := pyOrS default_population pop_na
    file := []
    handle_open := true
    file_exists := true
    pop_counts := [(some (pyOrS default_population pop_na), 0)]
    nspikes := 0 }

/-- `add_spike(node_id, timestamp, population=None)`:
`population = population or pop_na` — unlike the memory backend this falls
back to the module-level `pop_na`, ignoring the configured default — then
one line is written through the open handle, `self._nspikes += 1`, and the
count is bumped.  Writing through a closed handle raises
`ValueError: I/O operation on closed file`. -/
def add_spike (b : STCSVBuffer) (node_id : Int) (timestamp : ℚ)
    (population : Option String) : Except PyError STCSVBuffer :=
  if b.handle_open then
    let pop := pyOrS population pop_na
    Except.ok { b with
      file := b.file ++ [Row.mk timestamp pop node_id]
      nspikes := b.nspikes + 1
      pop_counts := dictIncr b.pop_counts (some pop) }
  else Except.error PyError.ioClosedFile

/-- `n_spikes(population=None)`: `self._pop_counts.get(population, 0)`,
again without resolving `None` to the default population. -/
def n_spikes (b : STCSVBuffer) (population : Option String) : Nat :=
  dictGet b.pop_counts population 0

/-- `time_range(populations=None)`:
`np.min(self._timestamps), np.max(self._timestamps)` — but `STCSVBuffer`
never defines an attribute `_timestamps`, so every call raises
`AttributeError`, whatever the buffer holds. -/
def time_range (_b : STCSVBuffer) : Except PyError (ℚ × ℚ) :=
  Except.error PyError.attributeError

/-- `to_dataframe(...)`: `raise NotImplementedError()`. -/
def to_dataframe (_b : STCSVBuffer) (_populations : Option PopArg)
    (_time_window : Option (ℚ × ℚ)) (_sort_order : SortOrder) :
    Except PyError Unit :=
  Except.error PyError.notImplementedError

/-- `close()`: `self._buffer_handle.close()` (a Python file close is itself
idempotent and never raises here), then delete the backing file only if it
still exists. -/
def close (b : STCSVBuffer) : Except PyError STCSVBuffer :=
  let b1 := { b with handle_open := false }
  if b1.file_exists then Except.ok { b1 with file_exists := false }
  else Except.ok b1

/-- `spikes(node_ids=None, populations=None, time_window=None, sort_order=...)`:
`self.flush()` first — which raises `ValueError: I/O operation on closed
file` if `close()` already ran — then the destructive
`_sort_buffer_file`, then a linear scan of the file through the filter.
The destructive rewrite of the backing file is reflected in the scanned
contents; the trailing `raise StopIteration` ends the generator. -/
def spikes (b : STCSVBuffer) (populations : Option PopArg)
    (time_window : Option (ℚ × ℚ)) (sort_order : SortOrder) :
    Except PyError (List Row) :=
  if b.handle_open then
    let file2 := sort_buffer_file sort_order b.file
    let f := create_filter populations time_window
    Except.ok (file2.filter (fun r => f r.p r.t))
  else Except.error PyError.ioClosedFile

end STCSVBuffer

/-- `applyCSV ops b`: run a sequence of `add_spike` calls on a CSV buffer,
stopping at the first error. -/
def applyCSV (ops : List Op) (b : STCSVBuffer) : Except PyError STCSVBuffer :=
  match ops with
  | [] => Except.ok b
  | o :: rest =>
    match b.add_spike o.node o.t o.pop with
    | Except.error e => Except.error e
    | Except.ok b2 => applyCSV rest b2

/-! ## `STMPIBuffer` and its k-way merge (`_sorted_itr`)

The distributed backend is one cache file per rank; its read path only
depends on the list of per-rank files, which is the modelled state.  A heap
element of `_sorted_itr` is what `next_row` returns: `None` for an
exhausted (or empty) reader, else the tuple
`(row[sort_col], row, csv_reader)`; the remaining lines of the reader stand
for the `csv_reader` object.  `heapq` with the Python-2-compatible
comparison is modelled by an ordered list: `None` compares below any tuple,
tuples compare by their first component (ties keep the earlier element
first — both library orders leave ties unspecified). -/

/-- One entry of the merge heap: `None`, or `(key, row, rest-of-reader)`. -/
abbrev Entry (K : Type) : Type := Option (K × Row × List Row)

/-- `next_row(csv_reader)`: the next parsed line keyed by the sort column,
or `None` once the reader raises `StopIteration`. -/
def next_row {K : Type} (key : Row → K) : List Row → Entry K
  | [] => Option.none
  | r :: rs => some (key r, r, rs)

/-- Python-2 comparison of heap entries: `None` is below everything, and
tuples compare by their leading key. -/
def entryLE {K : Type} [LinearOrder K] : Entry K → Entry K → Bool
  | Option.none, _ => true
  | some _, Option.none => false
  | some (k1, _, _), some (k2, _, _) => decide (k1 ≤ k2)

/-- `heapq.heappush`: insert keeping the backing list ordered (stable:
a new entry goes after equal ones). -/
def heappush {K : Type} [LinearOrder K] (e : Entry K) :
    List (Entry K) → List (Entry K)
  | [] => [e]
  | x :: xs => if entryLE x e then x :: heappush e xs else e :: x :: xs

/-- The records an entry still holds (its current row plus its reader's
remaining lines). -/
def entryRows {K : Type} : Entry K → List Row
  | Option.none => []
  | some (_, r, rest) => r :: rest

/-- All records held by a heap. -/
def heapRows {K : Type} (h : List (Entry K)) : List Row :=
  (h.map entryRows).flatten

/-- Termination measure: one unit per held record, plus one per `None`
entry. -/
def entryWeight {K : Type} : Entry K → Nat
  | Option.none => 1
  | some (_, _, rest) => 1 + rest.length

/-- Total termination measure of a heap. -/
def heapWeight {K : Type} (h : List (Entry K)) : Nat :=
  (h.map entryWeight).sum

/-- The `while h:` loop of `_sorted_itr`: pop the minimum, advance that
source's reader and re-insert its next entry, then emit the popped row if
the filter — called as `filter(row[1], row[2])`, i.e. with the population
and the NODE ID, not the timestamp — accepts it.  Popping a `None` entry
tuple-unpacks `None` and raises `TypeError`.  `fuel` only bounds the
recursion; `heapWeight h + 1` is always enough. -/
def mergeLoop {K : Type} [LinearOrder K] (key : Row → K)
    (f : String → ℚ → Bool) : Nat → List (Entry K) → Except PyError (List Row)
  | _, [] => Except.ok []
  | 0, _ :: _ => Except.error PyError.fuelExhausted
  | Nat.succ _fuel, Option.none :: _ => Except.error PyError.typeError
  | Nat.succ fuel, some (_, row, rest) :: hs =>
    let h2 : List (Entry K) :=
      match next_row key rest with
      | Option.none => hs
      | some n => heappush (some n) hs
    (mergeLoop key f fuel h2).map
      (fun out => if f row.p ((row.node : ℚ)) then row :: out else out)

/-- `_sorted_itr(filter, sort_col)`: build one reader per cached file, push
every initial `next_row` result onto the heap (empty files push `None`),
then run the merge loop. -/
def sorted_itr {K : Type} [LinearOrder K] (key : Row → K)
    (f : String → ℚ → Bool) (files : List (List Row)) :
    Except PyError (List Row) :=
  let h := (files.map (next_row key)).foldl (fun acc e => heappush e acc) []
  mergeLoop key f (heapWeight h + 1) h

/-- `_unsorted_itr(filter)`: scan the per-rank files in rank order through
the filter (called correctly here, as `filter(p=p, t=t)`). -/
def unsorted_itr (f : String → ℚ → Bool) (files : List (List Row)) : List Row :=
  files.flatten.filter (fun r => f r.p r.t)

/-- The distributed buffer, reduced to its read-path state: the list of
per-rank cache files in rank order. -/
structure STMPIBuffer where
  files : List (List Row)
deriving DecidableEq, Repr

namespace STMPIBuffer

/-- `spikes(node_ids=None, populations=None, time_window=None, sort_order=...)`:
for a sorted order, first destructively re-sort every per-rank file on the
requested column, then merge with `_sorted_itr(filter, 0 if by_time else 1)`
— so the merge key is `row[0]`, the timestamp, for `by_time`, and `row[1]`,
the POPULATION string (not the node id), for `by_id`.  Otherwise concatenate
the files with `_unsorted_itr`. -/
def spikes (b : STMPIBuffer) (populations : Option PopArg)
    (time_window : Option (ℚ × ℚ)) (sort_order : SortOrder) :
    Except PyError (List Row) :=
  let f := create_filter populations time_window
  match sort_order with
  | SortOrder.by_time =>
    sorted_itr (fun r => r.t) f (b.files.map (sort_buffer_file SortOrder.by_time))
  | SortOrder.by_id =>
    sorted_itr (fun r => r.p) f (b.files.map (sort_buffer_file SortOrder.by_id))
  | SortOrder.none => Except.ok (unsorted_itr f b.files)

end STMPIBuffer

/-! ## Lemmas about the stable insertion sort -/

theorem insertLe_mem {α : Type} (le : α → α → Bool) (a y : α) (l : List α) :
    y ∈ insertLe le a l ↔ y = a ∨ y ∈ l := by
  induction l with
  | nil => simp [insertLe]
  | cons x xs ih =>
    simp only [insertLe]
    split
    · simp [ih]
      tauto
    · simp

theorem insertLe_perm {α : Type} (le : α → α → Bool) (a : α) (l : List α) :
    List.Perm (insertLe le a l) (a :: l) := by
  induction l with
  | nil => exact List.Perm.refl _
  | cons x xs ih =>
    simp only [insertLe]
    split
    · exact (ih.cons x).trans (List.Perm.swap a x xs)
    · exact List.Perm.refl _

theorem sortListBy_perm {α : Type} (le : α → α → Bool) (l : List α) :
    List.Perm (sortListBy le l) l := by
  induction l with
  | nil => exact List.Perm.refl _
  | cons x xs ih =>
    exact (insertLe_perm le x (sortListBy le xs)).trans (ih.cons x)

theorem insertLe_pairwise {α : Type} (le : α → α → Bool)
    (htot : ∀ a b, le a b = true ∨ le b a = true)
    (htrans : ∀ a b c, le a b = true → le b c = true → le a c = true)
    (a : α) (l : List α) (hl : l.Pairwise (fun x y => le x y = true)) :
    (insertLe le a l).Pairwise (fun x y => le x y = true) := by
  induction l with
  | nil => simp [insertLe]
  | cons x xs ih =>
    rw [List.pairwise_cons] at hl
    obtain ⟨hx, hxs⟩ := hl
    simp only [insertLe]
    split
    · rename_i h
      rw [List.pairwise_cons]
      refine ⟨?_, ih hxs⟩
      intro y hy
      rcases (insertLe_mem le a y xs).mp hy with rfl | hy2
      · exact h
      · exact hx y hy2
    · rename_i h
      have hax : le a x = true := by
        rcases htot x a with h2 | h2
        · exact absurd h2 h
        · exact h2
      rw [List.pairwise_cons]
      constructor
      · intro y hy
        rcases List.mem_cons.mp hy with rfl | hy2
        · exact hax
        · exact htrans a x y hax (hx y hy2)
      · rw [List.pairwise_cons]
        exact ⟨hx, hxs⟩

theorem sortListBy_pairwise {α : Type} (le : α → α → Bool)
    (htot : ∀ a b, le a b = true ∨ le b a = true)
    (htrans : ∀ a b c, le a b = true → le b c = true → le a c = true)
    (l : List α) :
    (sortListBy le l).Pairwise (fun x y => le x y = true) := by
  induction l with
  | nil => simp [sortListBy]
  | cons x xs ih => exact insertLe_pairwise le htot htrans x _ ih

theorem sortListBy_ne_nil {α : Type} (le : α → α → Bool) (l : List α)
    (h : l ≠ []) : sortListBy le l ≠ [] := by
  intro hcon
  have hp := sortListBy_perm le l
  rw [hcon] at hp
  exact h (List.Perm.nil_eq hp).symm

/-! ## Lemmas about the dict model -/

theorem dictGet_dictIncr (m : List (Option String × Nat)) (k q : Option String) :
    dictGet (dictIncr m k) q 0
      = dictGet m q 0 + (if k = q then 1 else 0) := by
  induction m with
  | nil =>
    by_cases h : k = q <;> simp [dictIncr, dictGet, h]
  | cons kv rest ih =>
    obtain ⟨k2, v⟩ := kv
    by_cases h2 : k2 = k
    · subst h2
      by_cases hq : k2 = q <;> simp [dictIncr, dictGet, hq]
    · by_cases hq : k2 = q
      · subst hq
        have : ¬ k = k2 := fun hc => h2 hc.symm
        simp [dictIncr, dictGet, h2, this]
      · simp [dictIncr, dictGet, h2, hq, ih]

theorem foldl_dictIncr_get (res : Op → String) :
    ∀ (ops : List Op) (m : List (Option String × Nat)) (q : Option String),
    dictGet (ops.foldl (fun m2 o => dictIncr m2 (some (res o))) m) q 0
      = dictGet m q 0 + (ops.filter (fun o => decide (some (res o) = q))).length := by
  intro ops
  induction ops with
  | nil => simp
  | cons o rest ih =>
    intro m q
    simp only [List.foldl_cons, List.filter_cons]
    rw [ih]
    rw [dictGet_dictIncr]
    by_cases h : some (res o) = q <;> simp [h] <;> omega

/-! ## Lemmas about the memory backend -/

theorem buildMem_fold :
    ∀ (ops : List Op) (b : STMemoryBuffer),
    (ops.foldl (fun b2 o => b2.add_spike o.node o.t o.pop) b).default_population
        = b.default_population ∧
    (ops.foldl (fun b2 o => b2.add_spike o.node o.t o.pop) b).node_ids
        = b.node_ids ++ ops.map Op.node ∧
    (ops.foldl (fun b2 o => b2.add_spike o.node o.t o.pop) b).timestamps
        = b.timestamps ++ ops.map Op.t ∧
    (ops.foldl (fun b2 o => b2.add_spike o.node o.t o.pop) b).populations
        = b.populations ++ ops.map (fun o => pyOrS o.pop b.default_population) ∧
    (ops.foldl (fun b2 o => b2.add_spike o.node o.t o.pop) b).pop_counts
        = ops.foldl (fun m o => dictIncr m (some (pyOrS o.pop b.default_population)))
            b.pop_counts := by
  intro ops
  induction ops with
  | nil => intro b; simp
  | cons o rest ih =>
    intro b
    obtain ⟨ihd, ihn, iht, ihp, ihc⟩ := ih (b.add_spike o.node o.t o.pop)
    simp only [List.foldl_cons, List.map_cons]
    refine ⟨?_, ?_, ?_, ?_, ?_⟩
    · rw [ihd]; rfl
    · rw [ihn]; simp [STMemoryBuffer.add_spike]
    · rw [iht]; simp [STMemoryBuffer.add_spike]
    · rw [ihp]; simp [STMemoryBuffer.add_spike]
    · rw [ihc]; rfl

/-- Pointwise shape of the three parallel lists zipped back into records. -/
def zipRows : List ℚ → List String → List Int → List Row
  | t :: ts, p :: ps, n :: ns => Row.mk t p n :: zipRows ts ps ns
  | _, _, _ => []

theorem range_map_getD :
    ∀ (ts : List ℚ) (ps : List String) (ns : List Int),
    ps.length = ts.length → ns.length = ts.length →
    (List.range ts.length).map
        (fun i => Row.mk (ts.getD i 0) (ps.getD i "") (ns.getD i 0))
      = zipRows ts ps ns := by
  intro ts
  induction ts with
  | nil => intro ps ns _ _; simp [zipRows]
  | cons t ts2 ih =>
    intro ps ns hp hn
    cases ps with
    | nil => simp at hp
    | cons p ps2 =>
      cases ns with
      | nil => simp at hn
      | cons n ns2 =>
        simp only [List.length_cons, List.range_succ_eq_map, List.map_cons,
          List.map_map, Function.comp, List.getD_cons_zero, List.getD_cons_succ,
          zipRows]
        exact congrArg (List.cons _) (ih ps2 ns2 (by simpa using hp) (by simpa using hn))

theorem zipRows_maps (res : Op → String) (ops : List Op) :
    zipRows (ops.map Op.t) (ops.map res) (ops.map Op.node)
      = ops.map (fun o => Row.mk o.t (res o) o.node) := by
  induction ops with
  | nil => rfl
  | cons o rest ih => simp [zipRows, ih]

/-- `spikes(sort_order=None)` with no filters scans the identity permutation:
the memory backend returns exactly the inserted records, in insertion
order. -/
theorem memSpikes_roundtrip (d : Option String) (ops : List Op) :
    STMemoryBuffer.spikes (buildMem d ops) Option.none Option.none SortOrder.none
      = ops.map (fun o => Row.mk o.t (pyOrS o.pop (pyOrS d pop_na)) o.node) := by
  obtain ⟨hd, hn, ht, hp, _⟩ := buildMem_fold ops (STMemoryBuffer.init d)
  have hd0 : (STMemoryBuffer.init d).default_population = pyOrS d pop_na := rfl
  rw [hd0] at hp
  simp only [STMemoryBuffer.spikes, create_filter, buildMem] at *
  rw [hn, ht, hp]
  simp only [STMemoryBuffer.init, List.nil_append]
  rw [if_neg (by decide : ¬ (SortOrder.none = SortOrder.by_time))]
  rw [if_neg (by decide : ¬ (SortOrder.none = SortOrder.by_time))]
  have hfm : ∀ (l : List Nat) (g : Nat → Row),
      l.filterMap (fun i => some (g i)) = l.map g := by
    intro l g
    induction l with
    | nil => rfl
    | cons x xs ihl => simp [ihl]
  simp only [if_true]
  rw [hfm]
  rw [range_map_getD (ops.map Op.t) (ops.map (fun o => pyOrS o.pop (pyOrS d pop_na)))
    (ops.map Op.node) (by simp) (by simp)]
  exact zipRows_maps _ ops

/-! ## Lemmas about the CSV backend -/

theorem applyCSV_ok :
    ∀ (ops : List Op) (b : STCSVBuffer), b.handle_open = true →
    ∃ b2, applyCSV ops b = Except.ok b2 ∧
      b2.handle_open = true ∧
      b2.file_exists = b.file_exists ∧
      b2.default_population = b.default_population ∧
      b2.file = b.file ++ ops.map (fun o => Row.mk o.t (pyOrS o.pop pop_na) o.node) ∧
      b2.pop_counts
        = ops.foldl (fun m o => dictIncr m (some (pyOrS o.pop pop_na))) b.pop_counts ∧
      b2.nspikes = b.nspikes + ops.length := by
  intro ops
  induction ops with
  | nil =>
    intro b hopen
    exact ⟨b, rfl, hopen, rfl, rfl, by simp, rfl, rfl⟩
  | cons o rest ih =>
    intro b hopen
    have hstep : b.add_spike o.node o.t o.pop
        = Except.ok { b with
            file := b.file ++ [Row.mk o.t (pyOrS o.pop pop_na) o.node]
            nspikes := b.nspikes + 1
            pop_counts := dictIncr b.pop_counts (some (pyOrS o.pop pop_na)) } := by
      simp [STCSVBuffer.add_spike, hopen]
    obtain ⟨b2, happ, h1, h2, h3, h4, h5, h6⟩ := ih { b with
      file := b.file ++ [Row.mk o.t (pyOrS o.pop pop_na) o.node]
      nspikes := b.nspikes + 1
      pop_counts := dictIncr b.pop_counts (some (pyOrS o.pop pop_na)) } hopen
    refine ⟨b2, ?_, h1, h2, h3, ?_, ?_, ?_⟩
    · simp only [applyCSV, hstep]
      exact happ
    · rw [h4]; simp
    · rw [h5]; rfl
    · rw [h6]; simp [Nat.add_assoc, Nat.add_comm 1 rest.length]

/-! ## Lemmas about the k-way merge heap -/

theorem entryLE_total {K : Type} [LinearOrder K] (a b : Entry K) :
    entryLE a b = true ∨ entryLE b a = true := by
  cases a with
  | none => left; rfl
  | some x =>
    cases b with
    | none => right; rfl
    | some y =>
      obtain ⟨k1, r1, rest1⟩ := x
      obtain ⟨k2, r2, rest2⟩ := y
      simp only [entryLE, decide_eq_true_eq]
      exact le_total k1 k2

theorem entryLE_trans {K : Type} [LinearOrder K] (a b c : Entry K)
    (hab : entryLE a b = true) (hbc : entryLE b c = true) :
    entryLE a c = true := by
  cases a with
  | none => rfl
  | some x =>
    obtain ⟨k1, r1, rest1⟩ := x
    cases b with
    | none => simp [entryLE] at hab
    | some y =>
      obtain ⟨k2, r2, rest2⟩ := y
      cases c with
      | none => simp [entryLE] at hbc
      | some z =>
        obtain ⟨k3, r3, rest3⟩ := z
        simp only [entryLE, decide_eq_true_eq] at hab hbc ⊢
        exact le_trans hab hbc

theorem heappush_eq_insertLe {K : Type} [LinearOrder K] (e : Entry K) :
    ∀ (l : List (Entry K)), heappush e l = insertLe entryLE e l := by
  intro l
  induction l with
  | nil => rfl
  | cons x xs ih => simp only [heappush, insertLe, ih]

theorem heappush_perm {K : Type} [LinearOrder K] (e : Entry K) (l : List (Entry K)) :
    List.Perm (heappush e l) (e :: l) := by
  rw [heappush_eq_insertLe]
  exact insertLe_perm entryLE e l

theorem heappush_mem {K : Type} [LinearOrder K] (e a : Entry K) (l : List (Entry K)) :
    a ∈ heappush e l ↔ a = e ∨ a ∈ l := by
  rw [heappush_eq_insertLe]
  exact insertLe_mem entryLE e a l

theorem heappush_pairwise {K : Type} [LinearOrder K] (e : Entry K)
    (l : List (Entry K)) (hl : l.Pairwise (fun a b => entryLE a b = true)) :
    (heappush e l).Pairwise (fun a b => entryLE a b = true) := by
  rw [heappush_eq_insertLe]
  exact insertLe_pairwise entryLE entryLE_total entryLE_trans e l hl

/-- `entryRows` undoes `next_row`. -/
theorem entryRows_next_row {K : Type} (key : Row → K) (s : List Row) :
    entryRows (next_row key s) = s := by
  cases s <;> rfl

theorem heapRows_perm_of_perm {K : Type} (h1 h2 : List (Entry K))
    (hp : List.Perm h1 h2) : List.Perm (heapRows h1) (heapRows h2) := by
  exact (hp.map entryRows).flatten

theorem heapRows_heappush {K : Type} [LinearOrder K] (e : Entry K)
    (l : List (Entry K)) :
    List.Perm (heapRows (heappush e l)) (entryRows e ++ heapRows l) := by
  exact heapRows_perm_of_perm _ _ (heappush_perm e l)

theorem heapWeight_heappush {K : Type} [LinearOrder K] (e : Entry K)
    (l : List (Entry K)) :
    heapWeight (heappush e l) = entryWeight e + heapWeight l := by
  have hp := (heappush_perm e l).map entryWeight
  have := hp.sum_eq
  simpa [heapWeight] using this

theorem foldl_heappush_pairwise {K : Type} [LinearOrder K] :
    ∀ (es : List (Entry K)) (acc : List (Entry K)),
    acc.Pairwise (fun a b => entryLE a b = true) →
    (es.foldl (fun h e => heappush e h) acc).Pairwise
      (fun a b => entryLE a b = true) := by
  intro es
  induction es with
  | nil => intro acc hacc; exact hacc
  | cons e rest ih =>
    intro acc hacc
    exact ih (heappush e acc) (heappush_pairwise e acc hacc)

theorem foldl_heappush_mem {K : Type} [LinearOrder K] :
    ∀ (es : List (Entry K)) (acc : List (Entry K)) (a : Entry K),
    a ∈ es.foldl (fun h e => heappush e h) acc ↔ a ∈ acc ∨ a ∈ es := by
  intro es
  induction es with
  | nil => intro acc a; simp
  | cons e rest ih =>
    intro acc a
    rw [List.foldl_cons, ih, heappush_mem]
    simp
    tauto

theorem foldl_heappush_rows {K : Type} [LinearOrder K] :
    ∀ (es : List (Entry K)) (acc : List (Entry K)),
    List.Perm (heapRows (es.foldl (fun h e => heappush e h) acc))
      (heapRows acc ++ (es.map entryRows).flatten) := by
  intro es
  induction es with
  | nil => intro acc; simp [List.Perm.refl]
  | cons e rest ih =>
    intro acc
    rw [List.foldl_cons]
    refine (ih (heappush e acc)).trans ?_
    simp only [List.map_cons, List.flatten_cons]
    have h1 : List.Perm (heapRows (heappush e acc) ++ (rest.map entryRows).flatten)
        ((entryRows e ++ heapRows acc) ++ (rest.map entryRows).flatten) :=
      (heapRows_heappush e acc).append_right _
    refine h1.trans ?_
    rw [List.append_assoc]
    exact List.perm_append_comm_assoc (entryRows e) (heapRows acc) _

/-- In a heap sorted by the Python-2 entry order, a `None` member is at the
head. -/
theorem pairwise_none_head {K : Type} [LinearOrder K] (l : List (Entry K))
    (hmem : (Option.none : Entry K) ∈ l)
    (hpair : l.Pairwise (fun a b => entryLE a b = true)) :
    ∃ tl, l = (Option.none : Entry K) :: tl := by
  cases l with
  | nil => simp at hmem
  | cons x xs =>
    cases x with
    | none => exact ⟨xs, rfl⟩
    | some y =>
      rw [List.pairwise_cons] at hpair
      have hx : (Option.none : Entry K) ∈ xs := by
        rcases List.mem_cons.mp hmem with h | h
        · exact absurd h (by simp)
        · exact h
      have hle := hpair.1 Option.none hx
      obtain ⟨k, r, rest⟩ := y
      simp [entryLE] at hle

/-- Heap invariant: a live entry is a `some`, keyed by the sort key of its
current row, and its current row followed by its reader's remaining lines
is sorted on the key. -/
def goodEntry {K : Type} [LinearOrder K] (key : Row → K) (e : Entry K) : Prop :=
  ∃ k r rest, e = some (k, r, rest) ∧ k = key r ∧
    (r :: rest).Pairwise (fun a b => key a ≤ key b)

/-- Invariant preservation and correctness of the merge loop: on a heap of
live (`some`) entries, each internally sorted, ordered by `entryLE`, and
with enough fuel, the loop succeeds and emits a key-sorted permutation of
the filtered held records. -/
theorem mergeLoop_ok {K : Type} [LinearOrder K] (key : Row → K)
    (f : String → ℚ → Bool) :
    ∀ (fuel : Nat) (h : List (Entry K)),
    heapWeight h < fuel →
    (∀ e ∈ h, goodEntry key e) →
    h.Pairwise (fun a b => entryLE a b = true) →
    ∃ out, mergeLoop key f fuel h = Except.ok out ∧
      List.Perm out ((heapRows h).filter (fun r => f r.p ((r.node : ℚ)))) ∧
      out.Pairwise (fun a b => key a ≤ key b) := by
  intro fuel
  induction fuel with
  | zero =>
    intro h hw _ _
    exact absurd hw (Nat.not_lt_zero _)
  | succ fuel ih =>
    intro h hw hgood hpair
    cases h with
    | nil => exact ⟨[], rfl, by simp [heapRows], List.Pairwise.nil⟩
    | cons e hs =>
      obtain ⟨k, r, rest, he, hkey, hsorted⟩ := hgood e (List.mem_cons_self e hs)
      subst he
      rw [List.pairwise_cons] at hpair
      obtain ⟨hhead, hpair2⟩ := hpair
      have hgood2 : ∀ e2 ∈ hs, goodEntry key e2 :=
        fun e2 he2 => hgood e2 (List.mem_cons_of_mem _ he2)
      have hminrest : ∀ x ∈ rest, key r ≤ key x := (List.pairwise_cons.mp hsorted).1
      have hmin : ∀ x ∈ heapRows hs, key r ≤ key x := by
        intro x hx
        rw [heapRows, List.mem_flatten] at hx
        obtain ⟨l, hl, hxl⟩ := hx
        rw [List.mem_map] at hl
        obtain ⟨e2, he2, rfl⟩ := hl
        obtain ⟨k2, r2, rest2, he2eq, hkey2, hsorted2⟩ := hgood2 e2 he2
        subst he2eq
        have hle : entryLE (some (k, r, rest)) (some (k2, r2, rest2)) = true :=
          hhead _ he2
        have hkk : k ≤ k2 := by simpa [entryLE] using hle
        have hxmem : x ∈ r2 :: rest2 := hxl
        rcases List.mem_cons.mp hxmem with rfl | hxr
        · calc key r = k := hkey.symm
            _ ≤ k2 := hkk
            _ = key x := hkey2
        · have hr2x : key r2 ≤ key x := (List.pairwise_cons.mp hsorted2).1 x hxr
          calc key r = k := hkey.symm
            _ ≤ k2 := hkk
            _ = key r2 := hkey2
            _ ≤ key x := hr2x
      cases hrest : rest with
      | nil =>
        subst hrest
        have hw2 : heapWeight hs < fuel := by
          simp only [heapWeight, List.map_cons, List.sum_cons, entryWeight,
            List.length_nil] at hw ⊢
          omega
        obtain ⟨out, hout, hperm, hsout⟩ := ih hs hw2 hgood2 hpair2
        have hbound : ∀ x ∈ out, key r ≤ key x := by
          intro x hx
          have hx2 := hperm.mem_iff.mp hx
          exact hmin x (List.mem_filter.mp hx2).1
        refine ⟨if f r.p ((r.node : ℚ)) then r :: out else out, ?_, ?_, ?_⟩
        · simp only [mergeLoop, next_row, hout, Except.map]
        · have hrows : heapRows (some (k, r, ([] : List Row)) :: hs)
              = r :: heapRows hs := by
            simp [heapRows, entryRows]
          rw [hrows, List.filter_cons]
          by_cases hc : f r.p ((r.node : ℚ)) = true
          · rw [if_pos hc, if_pos hc]
            exact hperm.cons r
          · rw [if_neg hc, if_neg hc]
            exact hperm
        · by_cases hc : f r.p ((r.node : ℚ)) = true
          · rw [if_pos hc]
            exact List.pairwise_cons.mpr ⟨hbound, hsout⟩
          · rw [if_neg hc]
            exact hsout
      | cons r2 rs =>
        subst hrest
        have hpush := heappush_pairwise (some (key r2, r2, rs)) hs hpair2
        have hgood3 : ∀ e2 ∈ heappush (some (key r2, r2, rs)) hs, goodEntry key e2 := by
          intro e2 he2
          rcases (heappush_mem _ e2 hs).mp he2 with rfl | he3
          · exact ⟨key r2, r2, rs, rfl, rfl, (List.pairwise_cons.mp hsorted).2⟩
          · exact hgood2 e2 he3
        have hw2 : heapWeight (heappush (some (key r2, r2, rs)) hs) < fuel := by
          rw [heapWeight_heappush]
          simp only [heapWeight, List.map_cons, List.sum_cons, entryWeight,
            List.length_cons] at hw ⊢
          omega
        obtain ⟨out, hout, hperm, hsout⟩ := ih _ hw2 hgood3 hpush
        have hrowsh2 : List.Perm (heapRows (heappush (some (key r2, r2, rs)) hs))
            ((r2 :: rs) ++ heapRows hs) := heapRows_heappush _ _
        have hbound : ∀ x ∈ out, key r ≤ key x := by
          intro x hx
          have hx2 := hperm.mem_iff.mp hx
          have hx3 := (List.mem_filter.mp hx2).1
          have hx4 := hrowsh2.mem_iff.mp hx3
          rcases List.mem_append.mp hx4 with hx5 | hx5
          · exact hminrest x hx5
          · exact hmin x hx5
        refine ⟨if f r.p ((r.node : ℚ)) then r :: out else out, ?_, ?_, ?_⟩
        · simp only [mergeLoop, next_row, hout, Except.map]
        · have hrows : heapRows (some (k, r, r2 :: rs) :: hs)
              = r :: ((r2 :: rs) ++ heapRows hs) := by
            simp [heapRows, entryRows]
          rw [hrows, List.filter_cons]
          have hperm2 : List.Perm out
              (((r2 :: rs) ++ heapRows hs).filter (fun x => f x.p ((x.node : ℚ)))) :=
            hperm.trans (hrowsh2.filter _)
          by_cases hc : f r.p ((r.node : ℚ)) = true
          · rw [if_pos hc, if_pos hc]
            exact hperm2.cons r
          · rw [if_neg hc, if_neg hc]
            exact hperm2
        · by_cases hc : f r.p ((r.node : ℚ)) = true
          · rw [if_pos hc]
            exact List.pairwise_cons.mpr ⟨hbound, hsout⟩
          · rw [if_neg hc]
            exact hsout

/-- `_sorted_itr` on non-empty, individually key-sorted files succeeds and
emits a key-sorted permutation of the filtered concatenation. -/
theorem sorted_itr_ok {K : Type} [LinearOrder K] (key : Row → K)
    (f : String → ℚ → Bool) (files : List (List Row))
    (hne : ∀ s ∈ files, s ≠ [])
    (hsort : ∀ s ∈ files, s.Pairwise (fun a b => key a ≤ key b)) :
    ∃ out, sorted_itr key f files = Except.ok out ∧
      List.Perm out (files.flatten.filter (fun r => f r.p ((r.node : ℚ)))) ∧
      out.Pairwise (fun a b => key a ≤ key b) := by
  have hpair : ((files.map (next_row key)).foldl (fun acc e => heappush e acc)
      []).Pairwise (fun a b => entryLE a b = true) :=
    foldl_heappush_pairwise _ _ List.Pairwise.nil
  have hgood : ∀ e ∈ (files.map (next_row key)).foldl (fun acc e => heappush e acc) [],
      goodEntry key e := by
    intro e he
    rcases (foldl_heappush_mem _ _ e).mp he with h | h
    · simp at h
    · rw [List.mem_map] at h
      obtain ⟨s, hs, rfl⟩ := h
      cases s with
      | nil => exact absurd rfl (hne [] hs)
      | cons r rs => exact ⟨key r, r, rs, rfl, rfl, hsort _ hs⟩
  have hrows : List.Perm
      (heapRows ((files.map (next_row key)).foldl (fun acc e => heappush e acc) []))
      files.flatten := by
    refine (foldl_heappush_rows (files.map (next_row key)) []).trans ?_
    have hmm : (files.map (next_row key)).map entryRows = files := by
      rw [List.map_map]
      have : (entryRows ∘ next_row key) = (fun s => s) := by
        funext s
        exact entryRows_next_row key s
      rw [this, List.map_id_fun']
      rfl
    rw [hmm]
    simp [heapRows]
  obtain ⟨out, hout, hperm, hsout⟩ :=
    mergeLoop_ok key f _ _ (Nat.lt_succ_self _) hgood hpair
  exact ⟨out, hout, hperm.trans (hrows.filter _), hsout⟩

/-- The destructive per-file re-sort only permutes a file. -/
theorem sort_buffer_file_perm (o : SortOrder) (s : List Row) :
    List.Perm (sort_buffer_file o s) s := by
  cases o with
  | none => exact List.Perm.refl _
  | by_time => exact sortListBy_perm _ s
  | by_id => exact sortListBy_perm _ s

theorem flatten_map_sort_perm (o : SortOrder) (files : List (List Row)) :
    List.Perm (files.map (sort_buffer_file o)).flatten files.flatten := by
  induction files with
  | nil => exact List.Perm.refl _
  | cons s fs ih =>
    simp only [List.map_cons, List.flatten_cons]
    exact (sort_buffer_file_perm o s).append ih

theorem sort_buffer_file_by_time_sorted (s : List Row) :
    (sort_buffer_file SortOrder.by_time s).Pairwise (fun a b => a.t ≤ b.t) := by
  have h := sortListBy_pairwise (fun a b => decide (a.t ≤ b.t))
    (fun a b => by
      rcases le_total a.t b.t with h | h
      · left; exact decide_eq_true h
      · right; exact decide_eq_true h)
    (fun a b c hab hbc =>
      decide_eq_true (le_trans (of_decide_eq_true hab) (of_decide_eq_true hbc)))
    s
  exact h.imp (fun hx => of_decide_eq_true hx)

theorem sort_buffer_file_ne_nil (o : SortOrder) (s : List Row) (h : s ≠ []) :
    sort_buffer_file o s ≠ [] := by
  intro hcon
  have hp := sort_buffer_file_perm o s
  rw [hcon] at hp
  exact h (List.Perm.nil_eq hp).symm

/-- The no-constraint filter accepts every `(p, t)` scan. -/
theorem filter_create_none_id (l : List Row) :
    l.filter (fun r => create_filter Option.none Option.none r.p r.t) = l := by
  induction l with
  | nil => rfl
  | cons x xs ih => simp [create_filter, List.filter_cons, ih]

/-- The no-constraint filter also accepts every `(p, node)` call made by the
merge loop. -/
theorem filter_create_none_id_node (l : List Row) :
    l.filter (fun r => create_filter Option.none Option.none r.p ((r.node : ℚ))) = l := by
  induction l with
  | nil => rfl
  | cons x xs ih => simp [create_filter, List.filter_cons, ih]

/-- `_sorted_itr` errors out as soon as one source file is empty: the
initial `next_row` of that source is `None`, it is pushed into the heap,
surfaces first, and the tuple unpacking of the popped `None` raises
`TypeError`. -/
theorem sorted_itr_empty_source {K : Type} [LinearOrder K] (key : Row → K)
    (f : String → ℚ → Bool) (files : List (List Row))
    (hmem : ([] : List Row) ∈ files) :
    sorted_itr key f files = Except.error PyError.typeError := by
  have hn : (Option.none : Entry K)
      ∈ (files.map (next_row key)).foldl (fun acc e => heappush e acc) [] := by
    rw [foldl_heappush_mem]
    right
    rw [List.mem_map]
    exact ⟨[], hmem, rfl⟩
  have hpair := foldl_heappush_pairwise (files.map (next_row key)) [] List.Pairwise.nil
  obtain ⟨tl, htl⟩ := pairwise_none_head _ hn hpair
  unfold sorted_itr
  rw [htl]
  rfl

/-! ## The claims -/

/-- **C1** (confirmed).  Distributed-merge equivalence: for per-rank source
files that are all non-empty and individually sorted by timestamp, the
distributed buffer's `spikes(sort_order=ByTime)` with no filters succeeds
and yields exactly a sequence obtained by concatenating all sources and
sorting the combination by timestamp: the output is a permutation of the
concatenation of the sources and its timestamps are globally
non-decreasing. -/
theorem c1_distributed_merge_equivalence (files : List (List Row))
    (hne : ∀ s ∈ files, s ≠ [])
    (hsort : ∀ s ∈ files, s.Pairwise (fun a b => a.t ≤ b.t)) :
    ∃ out,
      STMPIBuffer.spikes ⟨files⟩ Option.none Option.none SortOrder.by_time
        = Except.ok out ∧
      List.Perm out files.flatten ∧
      out.Pairwise (fun a b => a.t ≤ b.t) := by
  have hne2 : ∀ s ∈ files.map (sort_buffer_file SortOrder.by_time), s ≠ [] := by
    intro s hs
    rw [List.mem_map] at hs
    obtain ⟨s0, hs0, rfl⟩ := hs
    exact sort_buffer_file_ne_nil _ s0 (hne s0 hs0)
  have hsort2 : ∀ s ∈ files.map (sort_buffer_file SortOrder.by_time),
      s.Pairwise (fun a b => a.t ≤ b.t) := by
    intro s hs
    rw [List.mem_map] at hs
    obtain ⟨s0, _, rfl⟩ := hs
    exact sort_buffer_file_by_time_sorted s0
  obtain ⟨out, hout, hperm, hsout⟩ :=
    sorted_itr_ok (fun r => r.t) (create_filter Option.none Option.none)
      (files.map (sort_buffer_file SortOrder.by_time)) hne2 hsort2
  refine ⟨out, ?_, ?_, hsout⟩
  · simpa [STMPIBuffer.spikes] using hout
  · refine hperm.trans ?_
    rw [filter_create_none_id_node]
    exact flatten_map_sort_perm _ files

/-- Witness for C1 at the spec's Scenario B: rank 0 holds
`[(1.0,"A",0), (3.0,"A",0)]`, rank 1 holds `[(2.0,"A",1)]`. -/
theorem c1_witness :
    (∀ s ∈ ([[Row.mk 1 "A" 0, Row.mk 3 "A" 0], [Row.mk 2 "A" 1]] :
        List (List Row)), s ≠ []) ∧
    (∀ s ∈ ([[Row.mk 1 "A" 0, Row.mk 3 "A" 0], [Row.mk 2 "A" 1]] :
        List (List Row)), s.Pairwise (fun a b => a.t ≤ b.t)) ∧
    (∃ out,
      STMPIBuffer.spikes ⟨[[Row.mk 1 "A" 0, Row.mk 3 "A" 0], [Row.mk 2 "A" 1]]⟩
          Option.none Option.none SortOrder.by_time = Except.ok out ∧
      List.Perm out ([[Row.mk 1 "A" 0, Row.mk 3 "A" 0],
        [Row.mk 2 "A" 1]] : List (List Row)).flatten ∧
      out.Pairwise (fun a b => a.t ≤ b.t)) :=
  ⟨by decide, by decide,
    c1_distributed_merge_equivalence
      [[Row.mk 1 "A" 0, Row.mk 3 "A" 0], [Row.mk 2 "A" 1]]
      (by decide) (by decide)⟩

/-- **C10** (confirmed).  If any per-rank source file is empty, the sorted
distributed retrieval (`spikes` with `ByTime` or `ById`) fails with the
`TypeError` from unpacking the `None` head that the empty source pushed
into the min-heap, instead of merging the remaining sources. -/
theorem c10_empty_source_merge_error (populations : Option PopArg)
    (time_window : Option (ℚ × ℚ)) (files : List (List Row))
    (hmem : ([] : List Row) ∈ files) :
    STMPIBuffer.spikes ⟨files⟩ populations time_window SortOrder.by_time
        = Except.error PyError.typeError ∧
    STMPIBuffer.spikes ⟨files⟩ populations time_window SortOrder.by_id
        = Except.error PyError.typeError := by
  constructor
  · have hm2 : ([] : List Row) ∈ files.map (sort_buffer_file SortOrder.by_time) := by
      rw [List.mem_map]
      exact ⟨[], hmem, rfl⟩
    simpa [STMPIBuffer.spikes] using
      sorted_itr_empty_source (fun r => r.t)
        (create_filter populations time_window) _ hm2
  · have hm2 : ([] : List Row) ∈ files.map (sort_buffer_file SortOrder.by_id) := by
      rw [List.mem_map]
      exact ⟨[], hmem, rfl⟩
    simpa [STMPIBuffer.spikes] using
      sorted_itr_empty_source (fun r => r.p)
        (create_filter populations time_window) _ hm2

/-- Witness for C10: a single empty per-rank file. -/
theorem c10_witness :
    (([] : List Row) ∈ ([[]] : List (List Row))) ∧
    (STMPIBuffer.spikes ⟨[[]]⟩ Option.none Option.none SortOrder.by_time
        = Except.error PyError.typeError ∧
     STMPIBuffer.spikes ⟨[[]]⟩ Option.none Option.none SortOrder.by_id
        = Except.error PyError.typeError) :=
  ⟨by decide,
    c10_empty_source_merge_error Option.none Option.none [[]] (by decide)⟩

/-- **C6** (code_bug).  The sorted distributed merge calls the filter as
`filter(row[1], row[2])` — population and node id — instead of
`filter(p, t)`: with `time_window = (0, 1)`, the record `(t=5, "A", node=0)`
is emitted (the window test is applied to the node id `0`), although the
Filter Builder predicate rejects its `(population, timestamp)` pair. -/
theorem c6_sorted_merge_filter_eval :
    STMPIBuffer.spikes ⟨[[Row.mk 5 "A" 0]]⟩ Option.none (some (0, 1))
        SortOrder.by_time = Except.ok [Row.mk 5 "A" 0] ∧
    create_filter Option.none (some (0, 1)) "A" 5 = false := by
  constructor
  · rfl
  · rfl

/-- **C2** (code_bug).  Sortedness of retrieval fails for the memory
backend with `sort_order=ById`: its dispatch tests the `by_time` condition
twice and never reaches the `np.argsort(self._node_ids)` arm, so the scan
runs in insertion order.  After inserting `(node=7, t=1/2)` then
`(node=3, t=3/2)`, `spikes(ById)` yields node ids `[7, 3]`, which are not
non-decreasing. -/
theorem c2_by_id_unsorted_eval :
    STMemoryBuffer.spikes
        (buildMem Option.none [Op.mk 7 (1/2) (some "A"), Op.mk 3 (3/2) (some "A")])
        Option.none Option.none SortOrder.by_id
      = [Row.mk (1/2) "A" 7, Row.mk (3/2) "A" 3] ∧
    ¬ List.Pairwise (fun a b => a ≤ b)
        ((STMemoryBuffer.spikes
            (buildMem Option.none [Op.mk 7 (1/2) (some "A"), Op.mk 3 (3/2) (some "A")])
            Option.none Option.none SortOrder.by_id).map Row.node) := by
  constructor
  · rfl
  · decide

/-- **C3** (confirmed).  Round-trip with clean termination:
`spikes(sort_order=None)` with no filters is a total, finite sequence (the
trailing `raise StopIteration` ends the generator under the pre-PEP-479
semantics this six-importing module targets) and returns exactly the
inserted records — in insertion order, hence in particular the same
multiset — for the memory backend, the CSV backend, and the distributed
backend's unsorted concatenation path. -/
theorem c3_round_trip (d : Option String) (ops : List Op) :
    STMemoryBuffer.spikes (buildMem d ops) Option.none Option.none SortOrder.none
      = ops.map (fun o => Row.mk o.t (pyOrS o.pop (pyOrS d pop_na)) o.node) ∧
    (∃ b2, applyCSV ops (STCSVBuffer.init d) = Except.ok b2 ∧
      STCSVBuffer.spikes b2 Option.none Option.none SortOrder.none
        = Except.ok (ops.map (fun o => Row.mk o.t (pyOrS o.pop pop_na) o.node))) ∧
    (∀ mb : STMPIBuffer,
      STMPIBuffer.spikes mb Option.none Option.none SortOrder.none
        = Except.ok mb.files.flatten) := by
  refine ⟨memSpikes_roundtrip d ops, ?_, ?_⟩
  · obtain ⟨b2, happ, hopen, _, _, hfile, _, _⟩ :=
      applyCSV_ok ops (STCSVBuffer.init d) rfl
    refine ⟨b2, happ, ?_⟩
    simp only [STCSVBuffer.spikes, hopen, if_true, sort_buffer_file]
    rw [hfile]
    have hinit : (STCSVBuffer.init d).file = [] := rfl
    rw [hinit, List.nil_append, filter_create_none_id]
  · intro mb
    simp only [STMPIBuffer.spikes, unsorted_itr, filter_create_none_id]

/-- **C4** (code_bug).  `time_range()` on an empty buffer does not fail
with the named `EmptyBufferError` the spec demands: the memory backend's
`np.min([])` raises numpy's `ValueError`, and the CSV backend reads the
attribute `self._timestamps`, which `STCSVBuffer` never defines, raising
`AttributeError` on every call. -/
theorem c4_time_range_eval :
    STMemoryBuffer.time_range (STMemoryBuffer.init Option.none)
        = Except.error PyError.valueError ∧
    PyError.valueError ≠ PyError.emptyBufferError ∧
    (∀ b : STCSVBuffer,
      STCSVBuffer.time_range b = Except.error PyError.attributeError) ∧
    PyError.attributeError ≠ PyError.emptyBufferError :=
  ⟨rfl, by decide, fun _ => rfl, by decide⟩

/-- C5 counterexample: on a memory buffer configured with default
population `"A"`, one `add_spike` with the population omitted is recorded
under `"A"`, but `n_spikes()` with the population omitted looks up the
literal `None` key of the count dict and returns `0`, not `k = 1`. -/
theorem c5_counterexample :
    STMemoryBuffer.n_spikes
        (STMemoryBuffer.add_spike (STMemoryBuffer.init (some "A")) 1 0 Option.none)
        Option.none ≠ 1 := by
  decide

/-- **C5** (corrected).  `n_spikes(population)` equals the number of
`add_spike` calls recorded under that population when the query names the
population explicitly: an `add_spike` that omits the population resolves it
to the buffer's configured default for the memory backend, but to the
module-level `pop_na` — ignoring the configured default — for the CSV
backend.  A query that omits the population is NOT resolved to the default:
it looks up the literal `None` key and returns `0`. -/
theorem c5_n_spikes_counts (d : Option String) (ops : List Op) :
    (∀ p : String,
      STMemoryBuffer.n_spikes (buildMem d ops) (some p)
        = (ops.filter (fun o => decide (pyOrS o.pop (pyOrS d pop_na) = p))).length) ∧
    STMemoryBuffer.n_spikes (buildMem d ops) Option.none = 0 ∧
    (∃ b2, applyCSV ops (STCSVBuffer.init d) = Except.ok b2 ∧
      (∀ p : String,
        STCSVBuffer.n_spikes b2 (some p)
          = (ops.filter (fun o => decide (pyOrS o.pop pop_na = p))).length) ∧
      STCSVBuffer.n_spikes b2 Option.none = 0) := by
  obtain ⟨_, _, _, _, hc⟩ := buildMem_fold ops (STMemoryBuffer.init d)
  have hd0 : (STMemoryBuffer.init d).default_population = pyOrS d pop_na := rfl
  rw [hd0] at hc
  have hinitc : (STMemoryBuffer.init d).pop_counts
      = [(some (pyOrS d pop_na), 0)] := rfl
  refine ⟨?_, ?_, ?_⟩
  · intro p
    show dictGet (buildMem d ops).pop_counts (some p) 0 = _
    rw [show (buildMem d ops).pop_counts
        = ops.foldl (fun m o => dictIncr m (some (pyOrS o.pop (pyOrS d pop_na))))
            (STMemoryBuffer.init d).pop_counts from hc]
    rw [foldl_dictIncr_get]
    rw [hinitc]
    have hz : dictGet [(some (pyOrS d pop_na), 0)] (some p) 0 = 0 := by
      by_cases hD : pyOrS d pop_na = p <;> simp [dictGet, hD]
    rw [hz, Nat.zero_add]
    congr 1
    apply List.filter_congr
    intro o _
    simp
  · show dictGet (buildMem d ops).pop_counts Option.none 0 = 0
    rw [show (buildMem d ops).pop_counts
        = ops.foldl (fun m o => dictIncr m (some (pyOrS o.pop (pyOrS d pop_na))))
            (STMemoryBuffer.init d).pop_counts from hc]
    rw [foldl_dictIncr_get]
    rw [hinitc]
    simp [dictGet]
  · obtain ⟨b2, happ, _, _, _, _, hcsvc, _⟩ :=
      applyCSV_ok ops (STCSVBuffer.init d) rfl
    refine ⟨b2, happ, ?_, ?_⟩
    · intro p
      show dictGet b2.pop_counts (some p) 0 = _
      rw [hcsvc, foldl_dictIncr_get]
      have hinitc2 : (STCSVBuffer.init d).pop_counts
          = [(some (pyOrS d pop_na), 0)] := rfl
      rw [hinitc2]
      have hz : dictGet [(some (pyOrS d pop_na), 0)] (some p) 0 = 0 := by
        by_cases hD : pyOrS d pop_na = p <;> simp [dictGet, hD]
      rw [hz, Nat.zero_add]
      congr 1
      apply List.filter_congr
      intro o _
      simp
    · show dictGet b2.pop_counts Option.none 0 = 0
      rw [hcsvc, foldl_dictIncr_get]
      have hinitc2 : (STCSVBuffer.init d).pop_counts
          = [(some (pyOrS d pop_na), 0)] := rfl
      rw [hinitc2]
      simp [dictGet]

/-- **C7** (confirmed).  The Filter Builder predicate accepts `(p, t)` iff
(there is no population constraint, or `p` is in the requested set) and
(there is no time window, or `lo ≤ t ≤ hi`, inclusive on both ends). -/
theorem c7_create_filter_correct (populations : Option PopArg)
    (time_window : Option (ℚ × ℚ)) (p : String) (t : ℚ) :
    create_filter populations time_window p t = true ↔
      ((match populations with
        | Option.none => True
        | some a => p ∈ popList a) ∧
       (match time_window with
        | Option.none => True
        | some w => w.1 ≤ t ∧ t ≤ w.2)) := by
  cases populations with
  | none =>
    cases time_window with
    | none => simp [create_filter]
    | some w => simp [create_filter, spikes_filter3, Bool.and_eq_true]
  | some a =>
    cases time_window with
    | none => simp [create_filter, spikes_filter2]
    | some w => simp [create_filter, spikes_filter1, Bool.and_eq_true]

/-- **C8** (confirmed).  `close()` twice on a CSV buffer succeeds both
times (the second close is a no-op on the already-closed state), the first
close deletes the owned backing file, and any later `spikes(...)` read
fails with the closed-handle `ValueError` ("I/O operation on closed file")
raised by the initial `flush()`, rather than returning data. -/
theorem c8_close_idempotent (b : STCSVBuffer) :
    ∃ b1, STCSVBuffer.close b = Except.ok b1 ∧
      STCSVBuffer.close b1 = Except.ok b1 ∧
      b1.file_exists = false ∧
      b1.handle_open = false ∧
      (∀ (populations : Option PopArg) (time_window : Option (ℚ × ℚ))
          (sort_order : SortOrder),
        STCSVBuffer.spikes b1 populations time_window sort_order
          = Except.error PyError.ioClosedFile) := by
  obtain ⟨dp, fl, ho, fe, pc, ns⟩ := b
  cases fe with
  | false =>
    exact ⟨⟨dp, fl, false, false, pc, ns⟩, rfl, rfl, rfl, rfl, fun _ _ _ => rfl⟩
  | true =>
    exact ⟨⟨dp, fl, false, false, pc, ns⟩, rfl, rfl, rfl, rfl, fun _ _ _ => rfl⟩

/-- **C9** (code_bug).  `to_dataframe` is not a real implementation: for
both the memory and the CSV backend, every call — whatever the filters —
raises `NotImplementedError`. -/
theorem c9_to_dataframe_placeholder :
    (∀ (b : STMemoryBuffer) (populations : Option PopArg)
        (time_window : Option (ℚ × ℚ)) (sort_order : SortOrder),
      STMemoryBuffer.to_dataframe b populations time_window sort_order
        = Except.error PyError.notImplementedError) ∧
    (∀ (b : STCSVBuffer) (populations : Option PopArg)
        (time_window : Option (ℚ × ℚ)) (sort_order : SortOrder),
      STCSVBuffer.to_dataframe b populations time_window sort_order
        = Except.error PyError.notImplementedError) :=
  ⟨fun _ _ _ _ => rfl, fun _ _ _ _ => rfl⟩

end SpikeTrainBuffer
